import Mathlib

/-!
Shallow embedding of the `maps` Go package (generic map utilities).

A Go map value `map[K]V` is modelled as an association list with unique
keys; a possibly-nil Go map variable is modelled by `GoMap K V :=
Option (List (K × V))`, where `none` is the nil map.  Reading from a nil
map succeeds and finds nothing (as in Go); writing to a nil map panics,
modelled by an `Option` result where `none` signals the panic.

Iteration order over a Go map is unspecified; the embedding folds over
the association list in list order.  All properties proved below are
order-independent facts about lookups of the results, stated under the
`nodupKeys` invariant that every Go map satisfies (unique keys).
-/

set_option autoImplicit false

namespace Maps

variable {K V : Type} [DecidableEq K]

/-- First-match lookup in an association list: the model of `v, ok := m[k]`
(`none` plays the role of `ok = false`). -/
def lookupA : List (K × V) → K → Option V
  | [], _ => none
  | (k', v) :: rest, k => if k' = k then some v else lookupA rest k

/-- Map assignment `m[k] = v`: replace the binding if the key is present,
otherwise add a new binding. -/
def insertA : List (K × V) → K → V → List (K × V)
  | [], k, v => [(k, v)]
  | (k', v') :: rest, k, v =>
    if k' = k then (k, v) :: rest else (k', v') :: insertA rest k v

/-- A possibly-nil Go map: `none` is the nil map. -/
abbrev GoMap (K V : Type) := Option (List (K × V))

/-- The entries a `range` loop visits: a nil map yields no iterations. -/
def toEntries (m : GoMap K V) : List (K × V) := m.getD []

/-- `v, ok := m[k]` on a possibly-nil map: a nil map finds nothing. -/
def mapLookup (m : GoMap K V) (k : K) : Option V := lookupA (toEntries m) k

/-- `m[k] = v` on a possibly-nil map: assignment to a nil map panics,
signalled by `none`. -/
def mapWrite (m : GoMap K V) (k : K) (v : V) : Option (GoMap K V) :=
  match m with
  | none => none
  | some l => some (some (insertA l k v))

/-- The invariant every Go map satisfies: keys are unique. -/
def nodupKeys (l : List (K × V)) : Prop := (l.map Prod.fst).Nodup

instance (l : List (K × V)) : Decidable (nodupKeys l) :=
  inferInstanceAs (Decidable ((l.map Prod.fst).Nodup))

/-! ## Merge (maps.go:31-44) and the canned resolvers (maps.go:15-26) -/

/-- `OverwriteResolver` always keeps the incoming (right) value. -/
def OverwriteResolver : V → V → V := fun _ right => right

/-- `NopResolver` always keeps the existing (left) value. -/
def NopResolver : V → V → V := fun left _ => left

/-- The inner loop of `Merge`: fold one source map `m` into the
accumulator `merged`.  `if existing, ok := merged[k]; ok` becomes the
match on `lookupA merged p.1`. -/
def mergeInto (fn : V → V → V) (merged : List (K × V)) (m : List (K × V)) :
    List (K × V) :=
  m.foldl (fun merged p =>
    match lookupA merged p.1 with
    | some existing => insertA merged p.1 (fn existing p.2)
    | none => insertA merged p.1 p.2) merged

/-- `Merge(fn, src...)`: starts from `make(map[K]V)` (an empty, non-nil
map) and folds the sources left to right; a nil source contributes no
entries. -/
def Merge (fn : V → V → V) (src : List (GoMap K V)) : GoMap K V :=
  some (src.foldl (fun merged m => mergeInto fn merged (toEntries m)) [])

/-- Instrumented inner merge loop: additionally records, in order, the
argument pair of every resolver invocation. -/
def mergeIntoT (fn : V → V → V) (st : List (K × V) × List (V × V))
    (m : List (K × V)) : List (K × V) × List (V × V) :=
  m.foldl (fun st p =>
    match lookupA st.1 p.1 with
    | some existing =>
      (insertA st.1 p.1 (fn existing p.2), st.2 ++ [(existing, p.2)])
    | none => (insertA st.1 p.1 p.2, st.2)) st

/-- Instrumented `Merge`: the merged map together with the trace of all
resolver invocations `(currentAccumulatedValue, newIncomingValue)`. -/
def MergeT (fn : V → V → V) (src : List (GoMap K V)) :
    List (K × V) × List (V × V) :=
  src.foldl (fun st m => mergeIntoT fn st (toEntries m)) ([], [])

/-- The values stored under key `k` across the source maps, in source
order (at most one per source, since map keys are unique). -/
def occurrences (k : K) (src : List (GoMap K V)) : List V :=
  src.filterMap (fun m => mapLookup m k)

/-- Specification combinator for the per-key merge result: the first
occurrence is inserted directly; every later occurrence `v` replaces the
accumulated value `e` by `fn e v`. -/
def resolveFold (fn : V → V → V) (acc : Option V) (vs : List V) : Option V :=
  vs.foldl (fun a v =>
    match a with
    | some e => some (fn e v)
    | none => some v) acc

/-! ## Accessors and mutators (maps.go:79-148) -/

/-- `GetOrPanic` (maps.go:79-84): returns the value for the key or panics
(the `Except.error` case models `panic(fmt.Errorf(...))`). -/
def GetOrPanic (m : GoMap K V) (key : K) : Except String V :=
  match mapLookup m key with
  | some val => Except.ok val
  | none => Except.error "key does not exist in map"

/-- `SetIfPresent` (maps.go:88-94): writes only when the key already
exists, returning whether the write occurred.  The outer `Option` is the
panic channel of the map assignment. -/
def SetIfPresent (m : GoMap K V) (key : K) (val : V) :
    Option (GoMap K V × Bool) :=
  match mapLookup m key with
  | some _ => (mapWrite m key val).map (fun m2 => (m2, true))
  | none => some (m, false)

/-- `SetIfAbsent` (maps.go:99-105): writes only when the key does not
exist, returning whether the write occurred. -/
def SetIfAbsent (m : GoMap K V) (key : K) (val : V) :
    Option (GoMap K V × Bool) :=
  match mapLookup m key with
  | none => (mapWrite m key val).map (fun m2 => (m2, true))
  | some _ => some (m, false)

/-- `Clone` (maps.go:118-127): a nil map clones to nil; otherwise every
entry is inserted into a fresh empty map. -/
def Clone (m : GoMap K V) : GoMap K V :=
  match m with
  | none => none
  | some l => some (l.foldl (fun newMap p => insertA newMap p.1 p.2) [])

/-- `Copy` (maps.go:131-135): writes every entry of `src` into `dst` in
place, overwriting colliding keys.  Modelled on the underlying entry
lists (a writable, non-nil destination). -/
def Copy (src dst : List (K × V)) : List (K × V) :=
  src.foldl (fun dst p => insertA dst p.1 p.2) dst

/-- `Equal` (maps.go:138-148): length check, then every entry of `m1`
must be present in `m2` with an equal value. -/
def Equal [DecidableEq V] (m1 m2 : GoMap K V) : Bool :=
  if (toEntries m1).length ≠ (toEntries m2).length then false
  else (toEntries m1).all (fun p =>
    match mapLookup m2 p.1 with
    | some v2 => p.2 == v2
    | none => false)

/-! ## Diff (maps.go:221-284) and KeyDiff (maps.go:289-306) -/

/-- `type DiffReason int` (maps.go:221). -/
abbrev DiffReason := Int

/-- The values for a given key differ between maps. -/
def DiffValue : DiffReason := 0

/-- The key exists in the right map but not in the left map. -/
def DiffMissingLeft : DiffReason := 1

/-- The key exists in the left map but not in the right map. -/
def DiffMissingRight : DiffReason := 2

/-- `EntryComparison` (maps.go:234-239).  `Left`/`Right` hold the zero
value (`default`) when the key is absent on that side, exactly as the Go
`var otherVal V` does. -/
structure EntryComparison (V : Type) where
  Left : V
  Right : V
  Diff : String
  Reason : DiffReason
  deriving DecidableEq

/-- Modelled from the spec: the `Diff` field carries a textual
whole-mapping diff produced by the external `go-cmp` library (not part of
this repository); the spec declares it informational only and allows any
deterministic renderer to be substituted.  Modelled as the constant
renderer. -/
def cmpDiff (left right : List (K × V)) : String :=
  let _ := left
  let _ := right
  ""

/-- First pass of `Diff` (maps.go:245-262), folded over the entries of
the left map.  `otherVal, ok := right[key]` is the match on
`lookupA right p.1`; in the recording branch the two sequential `if`
statements on `reason` collapse to: `DiffMissingRight` when `!ok`, else
`DiffValue`.  The whole-map diff text `d` is the same at each iteration
and is passed in once. -/
def diffPassLeft [Inhabited V] [DecidableEq V] (d : String)
    (right : List (K × V)) (res : List (K × EntryComparison V))
    (l : List (K × V)) : List (K × EntryComparison V) :=
  l.foldl (fun res p =>
    match lookupA right p.1 with
    | none => insertA res p.1 (EntryComparison.mk p.2 default d DiffMissingRight)
    | some otherVal =>
      if p.2 ≠ otherVal then
        insertA res p.1 (EntryComparison.mk p.2 otherVal d DiffValue)
      else res) res

/-- Second pass of `Diff` (maps.go:264-281), folded over the entries of
the right map; symmetric to the first pass, recording `DiffMissingLeft`
for keys absent from the left map. -/
def diffPassRight [Inhabited V] [DecidableEq V] (d : String)
    (left : List (K × V)) (res : List (K × EntryComparison V))
    (l : List (K × V)) : List (K × EntryComparison V) :=
  l.foldl (fun res p =>
    match lookupA left p.1 with
    | none => insertA res p.1 (EntryComparison.mk default p.2 d DiffMissingLeft)
    | some otherVal =>
      if p.2 ≠ otherVal then
        insertA res p.1 (EntryComparison.mk otherVal p.2 d DiffValue)
      else res) res

/-- `Diff` (maps.go:243-284): pass 1 over the left map into a fresh
result, then pass 2 over the right map into the same result. -/
def Diff [Inhabited V] [DecidableEq V] (left right : List (K × V)) :
    List (K × EntryComparison V) :=
  diffPassRight (cmpDiff left right) left
    (diffPassLeft (cmpDiff left right) right [] left) right

/-- `KeyDiff` (maps.go:289-306): the keys of `left` absent from `right`,
and the keys of `right` absent from `left`, each collected by appending
during a single pass. -/
def KeyDiff (left right : List (K × V)) : List K × List K :=
  (left.foldl (fun leftKeys p =>
      match lookupA right p.1 with
      | some _ => leftKeys
      | none => leftKeys ++ [p.1]) [],
   right.foldl (fun rightKeys p =>
      match lookupA left p.1 with
      | some _ => rightKeys
      | none => rightKeys ++ [p.1]) [])

/-! ## Basic lemmas about lookup and insertion -/

theorem lookupA_insertA_self (l : List (K × V)) (k : K) (v : V) :
    lookupA (insertA l k v) k = some v := by
  induction l with
  | nil => simp [insertA, lookupA]
  | cons p rest ih =>
    by_cases h : p.1 = k
    · simp [insertA, h, lookupA]
    · simp [insertA, h, lookupA, ih]

theorem lookupA_insertA_ne (l : List (K × V)) {k k2 : K} (v : V)
    (h : k ≠ k2) : lookupA (insertA l k v) k2 = lookupA l k2 := by
  induction l with
  | nil => simp [insertA, lookupA, h]
  | cons p rest ih =>
    by_cases hp : p.1 = k
    · simp [insertA, hp, lookupA, h]
    · simp [insertA, hp, lookupA, ih]

theorem lookupA_isSome_iff (l : List (K × V)) (k : K) :
    (lookupA l k).isSome ↔ k ∈ l.map Prod.fst := by
  induction l with
  | nil => simp [lookupA]
  | cons p rest ih =>
    by_cases h : p.1 = k
    · simp [lookupA, h]
    · simp [lookupA, h, ih, Ne.symm h]

theorem lookupA_eq_none_of_not_mem (l : List (K × V)) (k : K)
    (h : k ∉ l.map Prod.fst) : lookupA l k = none := by
  have h2 := (lookupA_isSome_iff l k).not.mpr h
  cases hl : lookupA l k with
  | none => rfl
  | some v => exact absurd (by simp [hl]) h2

theorem lookupA_append (l1 l2 : List (K × V)) (k : K) :
    lookupA (l1 ++ l2) k =
      match lookupA l1 k with
      | some v => some v
      | none => lookupA l2 k := by
  induction l1 with
  | nil => simp [lookupA]
  | cons p rest ih =>
    by_cases h : p.1 = k
    · simp [lookupA, h]
    · simp [lookupA, h, ih]

theorem insertA_of_fresh (l : List (K × V)) (k : K) (v : V)
    (h : lookupA l k = none) : insertA l k v = l ++ [(k, v)] := by
  induction l with
  | nil => simp [insertA]
  | cons p rest ih =>
    by_cases hp : p.1 = k
    · simp [lookupA, hp] at h
    · simp [lookupA, hp] at h
      simp [insertA, hp, ih h]

theorem lookupA_of_mem_nodup {l : List (K × V)} {k : K} {v : V}
    (hnd : nodupKeys l) (hmem : (k, v) ∈ l) : lookupA l k = some v := by
  induction l with
  | nil => simp at hmem
  | cons p rest ih =>
    have hnd2 : nodupKeys rest := (List.nodup_cons.mp hnd).2
    rcases List.mem_cons.mp hmem with heq | hmem2
    · subst heq; simp [lookupA]
    · have hne : p.1 ≠ k := by
        intro hk
        exact (List.nodup_cons.mp hnd).1
          (hk ▸ List.mem_map_of_mem Prod.fst hmem2)
      simp [lookupA, hne, ih hnd2 hmem2]

/-- Folding plain insertions of a duplicate-free entry list over any
destination: keys of the list win, other keys keep the binding of the
destination.  This is the common core of `Clone` and `Copy`. -/
theorem foldl_insertA_lookup (l : List (K × V)) (hnd : nodupKeys l) :
    ∀ (dst : List (K × V)) (k : K),
      lookupA (l.foldl (fun d p => insertA d p.1 p.2) dst) k =
        match lookupA l k with
        | some v => some v
        | none => lookupA dst k := by
  induction l with
  | nil => intro dst k; simp [lookupA]
  | cons p rest ih =>
    intro dst k
    have hnd2 : nodupKeys rest := (List.nodup_cons.mp hnd).2
    have hstep : (p :: rest).foldl (fun d q => insertA d q.1 q.2) dst =
        rest.foldl (fun d q => insertA d q.1 q.2) (insertA dst p.1 p.2) := rfl
    rw [hstep, ih hnd2]
    by_cases h : p.1 = k
    · have hnr : lookupA rest k = none := by
        apply lookupA_eq_none_of_not_mem
        intro hmem
        exact (List.nodup_cons.mp hnd).1 (h ▸ hmem)
      simp [lookupA, h, hnr, h ▸ lookupA_insertA_self dst p.1 p.2]
    · simp [lookupA, h, lookupA_insertA_ne dst p.2 h]

/-- Folding a duplicate-free entry list into a destination containing
none of its keys appends the list unchanged. -/
theorem foldl_insertA_of_fresh (l : List (K × V)) (hnd : nodupKeys l) :
    ∀ (dst : List (K × V)), (∀ p ∈ l, lookupA dst p.1 = none) →
      l.foldl (fun d p => insertA d p.1 p.2) dst = dst ++ l := by
  induction l with
  | nil => intro dst _; simp
  | cons p rest ih =>
    intro dst hfresh
    have hnd2 : nodupKeys rest := (List.nodup_cons.mp hnd).2
    have hp : lookupA dst p.1 = none := hfresh p (List.mem_cons_self p rest)
    have hstep : (p :: rest).foldl (fun d q => insertA d q.1 q.2) dst =
        rest.foldl (fun d q => insertA d q.1 q.2) (insertA dst p.1 p.2) := rfl
    rw [hstep, insertA_of_fresh dst p.1 p.2 hp]
    rw [ih hnd2 (dst ++ [(p.1, p.2)]) ?_]
    · simp
    · intro q hq
      rw [lookupA_append]
      have hqd : lookupA dst q.1 = none := hfresh q (List.mem_cons_of_mem p hq)
      have hne : p.1 ≠ q.1 := by
        intro hk
        exact (List.nodup_cons.mp hnd).1
          (hk ▸ List.mem_map_of_mem Prod.fst hq)
      simp [hqd, lookupA, hne]

/-! ## Merge lemmas -/

/-- Per-key effect of folding one duplicate-free source map into the
accumulator: a key of the map gets its value, resolved against an
existing accumulator binding; other keys are untouched. -/
theorem mergeInto_lookup (fn : V → V → V) (m : List (K × V))
    (hnd : nodupKeys m) :
    ∀ (acc : List (K × V)) (k : K),
      lookupA (mergeInto fn acc m) k =
        match lookupA m k with
        | none => lookupA acc k
        | some v =>
          match lookupA acc k with
          | some e => some (fn e v)
          | none => some v := by
  induction m with
  | nil => intro acc k; simp [mergeInto, lookupA]
  | cons p rest ih =>
    intro acc k
    have hnd2 : nodupKeys rest := (List.nodup_cons.mp hnd).2
    have hstep : mergeInto fn acc (p :: rest) =
        mergeInto fn
          (match lookupA acc p.1 with
           | some existing => insertA acc p.1 (fn existing p.2)
           | none => insertA acc p.1 p.2) rest := by
      simp [mergeInto]
    rw [hstep, ih hnd2]
    by_cases h : p.1 = k
    · have hnr : lookupA rest k = none := by
        apply lookupA_eq_none_of_not_mem
        intro hmem
        exact (List.nodup_cons.mp hnd).1 (h ▸ hmem)
      subst h
      cases hacc : lookupA acc p.1 with
      | none => simp [lookupA, hnr, hacc, lookupA_insertA_self]
      | some e => simp [lookupA, hnr, hacc, lookupA_insertA_self]
    · cases hacc : lookupA acc p.1 with
      | none => simp [lookupA, h, hacc, lookupA_insertA_ne acc p.2 h]
      | some e => simp [lookupA, h, hacc, lookupA_insertA_ne acc (fn e p.2) h]

/-- Per-key result of the full merge fold: the accumulated value is the
`resolveFold` of the occurrences of the key across the sources. -/
theorem merge_fold_lookup (fn : V → V → V) (src : List (GoMap K V))
    (hnd : ∀ m ∈ src, nodupKeys (toEntries m)) :
    ∀ (acc : List (K × V)) (k : K),
      lookupA (src.foldl (fun merged m => mergeInto fn merged (toEntries m)) acc) k =
        resolveFold fn (lookupA acc k) (occurrences k src) := by
  induction src with
  | nil => intro acc k; simp [occurrences, resolveFold]
  | cons m rest ih =>
    intro acc k
    have hm : nodupKeys (toEntries m) := hnd m (List.mem_cons_self m rest)
    have hrest : ∀ m2 ∈ rest, nodupKeys (toEntries m2) := fun m2 h2 =>
      hnd m2 (List.mem_cons_of_mem m h2)
    have hstep : (m :: rest).foldl
        (fun merged m2 => mergeInto fn merged (toEntries m2)) acc =
        rest.foldl (fun merged m2 => mergeInto fn merged (toEntries m2))
          (mergeInto fn acc (toEntries m)) := rfl
    rw [hstep, ih hrest, mergeInto_lookup fn (toEntries m) hm acc k]
    have hocc : occurrences k (m :: rest) =
        match mapLookup m k with
        | some v => v :: occurrences k rest
        | none => occurrences k rest := by
      cases h : mapLookup m k <;> simp [occurrences, List.filterMap_cons, h]
    rw [hocc]
    cases h : mapLookup m k with
    | none => simp [mapLookup] at h; rw [h]
    | some v =>
      simp [mapLookup] at h
      rw [h]
      cases hacc : lookupA acc k <;> simp [resolveFold]

/-- The key set of a merge result is exactly the set of keys occurring in
some source: `resolveFold` is `some` exactly on a nonempty occurrence
list. -/
theorem resolveFold_isSome (fn : V → V → V) (vs : List V) :
    ∀ (acc : Option V),
      (resolveFold fn acc vs).isSome = (acc.isSome || !vs.isEmpty) := by
  induction vs with
  | nil => intro acc; cases acc <;> simp [resolveFold]
  | cons v rest ih =>
    intro acc
    have hstep : resolveFold fn acc (v :: rest) =
        resolveFold fn
          (match acc with
           | some e => some (fn e v)
           | none => some v) rest := rfl
    rw [hstep, ih]
    cases acc <;> simp

/-- The instrumented merge computes the same map as `Merge`. -/
theorem mergeIntoT_fst (fn : V → V → V) (m : List (K × V)) :
    ∀ (st : List (K × V) × List (V × V)),
      (mergeIntoT fn st m).1 = mergeInto fn st.1 m := by
  induction m with
  | nil => intro st; simp [mergeIntoT, mergeInto]
  | cons p rest ih =>
    intro st
    have hstep : mergeIntoT fn st (p :: rest) =
        mergeIntoT fn
          (match lookupA st.1 p.1 with
           | some existing =>
             (insertA st.1 p.1 (fn existing p.2), st.2 ++ [(existing, p.2)])
           | none => (insertA st.1 p.1 p.2, st.2)) rest := rfl
    have hstep2 : mergeInto fn st.1 (p :: rest) =
        mergeInto fn
          (match lookupA st.1 p.1 with
           | some existing => insertA st.1 p.1 (fn existing p.2)
           | none => insertA st.1 p.1 p.2) rest := rfl
    rw [hstep, hstep2, ih]
    cases lookupA st.1 p.1 <;> rfl

/-- Folding a source whose keys are all absent from the accumulator
appends its entries and invokes the resolver zero times. -/
theorem mergeIntoT_of_fresh (fn : V → V → V) (m : List (K × V))
    (hnd : nodupKeys m) :
    ∀ (acc : List (K × V)) (tr : List (V × V)),
      (∀ p ∈ m, lookupA acc p.1 = none) →
      mergeIntoT fn (acc, tr) m = (acc ++ m, tr) := by
  induction m with
  | nil => intro acc tr _; simp [mergeIntoT]
  | cons p rest ih =>
    intro acc tr hfresh
    have hnd2 : nodupKeys rest := (List.nodup_cons.mp hnd).2
    have hp : lookupA acc p.1 = none := hfresh p (List.mem_cons_self p rest)
    have hstep : mergeIntoT fn (acc, tr) (p :: rest) =
        mergeIntoT fn (insertA acc p.1 p.2, tr) rest := by
      simp [mergeIntoT, hp]
    rw [hstep, insertA_of_fresh acc p.1 p.2 hp]
    rw [ih hnd2 (acc ++ [(p.1, p.2)]) tr ?_]
    · simp
    · intro q hq
      rw [lookupA_append]
      have hqd : lookupA acc q.1 = none := hfresh q (List.mem_cons_of_mem p hq)
      have hne : p.1 ≠ q.1 := by
        intro hk
        exact (List.nodup_cons.mp hnd).1
          (hk ▸ List.mem_map_of_mem Prod.fst hq)
      simp [hqd, lookupA, hne]

/-- Top-level per-key characterization of `Merge`. -/
theorem Merge_lookup (fn : V → V → V) (src : List (GoMap K V))
    (hnd : ∀ m ∈ src, nodupKeys (toEntries m)) (k : K) :
    mapLookup (Merge fn src) k = resolveFold fn none (occurrences k src) := by
  have h := merge_fold_lookup fn src hnd [] k
  simpa [Merge, mapLookup, toEntries, lookupA] using h

/-- The map component of the instrumented merge agrees with `Merge`. -/
theorem MergeT_fst (fn : V → V → V) (src : List (GoMap K V)) :
    (MergeT fn src).1 = toEntries (Merge fn src) := by
  have h : ∀ (st : List (K × V) × List (V × V)),
      (src.foldl (fun st m => mergeIntoT fn st (toEntries m)) st).1 =
        src.foldl (fun merged m => mergeInto fn merged (toEntries m)) st.1 := by
    induction src with
    | nil => intro st; rfl
    | cons m rest ih =>
      intro st
      have hstep : (m :: rest).foldl
          (fun st2 m2 => mergeIntoT fn st2 (toEntries m2)) st =
          rest.foldl (fun st2 m2 => mergeIntoT fn st2 (toEntries m2))
            (mergeIntoT fn st (toEntries m)) := rfl
      rw [hstep, ih, mergeIntoT_fst]
      rfl
  simpa [MergeT, Merge, toEntries] using h ([], [])

/-! ## Claim theorems -/

/-- C1: for every resolver `fn` and mappings `A`, `B` with disjoint key
sets, `Merge fn [A, B]` has exactly the union of the entries of `A` and
`B` and the resolver is never invoked (the invocation trace is empty);
in general, the value at each key is the `resolveFold` of the list of
occurrences of that key across the sources — the first occurrence is
inserted directly without invoking the resolver, and each later occurrence `v`
replaces the accumulated value `e` by `fn e v`, i.e. the resolver is
invoked only on keys already present in the accumulator, with arguments
`(currentAccumulatedValue, newIncomingValue)`; the map computed by the
instrumented merge agrees with `Merge`. -/
theorem merge_disjoint_union_and_collision_rule :
    (∀ (fn : V → V → V) (A B : List (K × V)),
      nodupKeys A → nodupKeys B →
      (∀ k ∈ A.map Prod.fst, lookupA B k = none) →
      (∀ k, mapLookup (Merge fn [some A, some B]) k =
          match lookupA A k with
          | some v => some v
          | none => lookupA B k)
        ∧ (MergeT fn [some A, some B]).2 = [])
    ∧ (∀ (fn : V → V → V) (src : List (GoMap K V)),
      (∀ m ∈ src, nodupKeys (toEntries m)) →
      (∀ k, mapLookup (Merge fn src) k = resolveFold fn none (occurrences k src))
        ∧ (MergeT fn src).1 = toEntries (Merge fn src)) := by
  constructor
  · intro fn A B hA hB hdisj
    have hdisj2 : ∀ k, lookupA A k = none ∨ lookupA B k = none := by
      intro k
      cases hAk : lookupA A k with
      | none => exact Or.inl rfl
      | some v =>
        refine Or.inr (hdisj k ?_)
        exact (lookupA_isSome_iff A k).mp (by simp [hAk])
    have hnd : ∀ m ∈ [some A, some B], nodupKeys (toEntries (K := K) (V := V) m) := by
      intro m hm
      rcases List.mem_cons.mp hm with h | h
      · subst h; exact hA
      · simp at h; subst h; exact hB
    constructor
    · intro k
      rw [Merge_lookup fn [some A, some B] hnd k]
      rcases hdisj2 k with h | h
      · cases hBk : lookupA B k with
        | none => simp [occurrences, mapLookup, toEntries, h, hBk, resolveFold]
        | some w => simp [occurrences, mapLookup, toEntries, h, hBk, resolveFold]
      · cases hAk : lookupA A k with
        | none => simp [occurrences, mapLookup, toEntries, h, hAk, resolveFold]
        | some v => simp [occurrences, mapLookup, toEntries, h, hAk, resolveFold]
    · have hfreshA : ∀ p ∈ A, lookupA ([] : List (K × V)) p.1 = none := by
        intro p _; rfl
      have h1 : mergeIntoT fn ([], []) A = ([] ++ A, []) :=
        mergeIntoT_of_fresh fn A hA [] [] hfreshA
      have hfreshB : ∀ p ∈ B, lookupA A p.1 = none := by
        intro p hp
        cases hAp : lookupA A p.1 with
        | none => rfl
        | some v =>
          have hkA : p.1 ∈ A.map Prod.fst :=
            (lookupA_isSome_iff A p.1).mp (by simp [hAp])
          have hBn := hdisj p.1 hkA
          have hkB : p.1 ∈ B.map Prod.fst := List.mem_map_of_mem Prod.fst hp
          have hBs := (lookupA_isSome_iff B p.1).mpr hkB
          rw [hBn] at hBs
          simp at hBs
      have h2 : mergeIntoT fn (A, []) B = (A ++ B, []) :=
        mergeIntoT_of_fresh fn B hB A [] hfreshB
      have hM : MergeT fn [some A, some B] =
          mergeIntoT fn (mergeIntoT fn ([], []) A) B := rfl
      rw [hM, h1, List.nil_append, h2]
  · intro fn src hnd
    exact ⟨fun k => Merge_lookup fn src hnd k, MergeT_fst fn src⟩

/-- Witness for C1 at concrete inputs: the disjoint maps `{1 ↦ 10}` and
`{2 ↦ 20}` merge to their union with an empty resolver trace, and the
per-key collision rule instantiated at overlapping maps. -/
theorem merge_disjoint_union_and_collision_rule_witness :
    (mapLookup (Merge (fun a b : Nat => a + b)
        [some [(1, 10)], some [(2, 20)]]) 2 =
      match lookupA [((1 : Nat), (10 : Nat))] 2 with
      | some v => some v
      | none => lookupA [((2 : Nat), (20 : Nat))] 2)
    ∧ (MergeT (fun a b : Nat => a + b) [some [(1, 10)], some [(2, 20)]]).2 = []
    ∧ mapLookup (Merge (fun a b : Nat => a + b)
        [some [(1, 10)], some [(1, 20)]]) 1 =
      resolveFold (fun a b : Nat => a + b) none
        (occurrences 1 [some [(1, 10)], some [(1, 20)]]) := by
  have h1 := merge_disjoint_union_and_collision_rule.1 (fun a b : Nat => a + b)
    [(1, 10)] [(2, 20)] (by decide) (by decide) (by decide)
  have h2 := merge_disjoint_union_and_collision_rule.2 (fun a b : Nat => a + b)
    [some [(1, 10)], some [(1, 20)]] (by decide)
  exact ⟨h1.1 2, h1.2, h2.1 1⟩

/-- C3: when `A` and `B` share key `k` with values `a` and `b`, merging
with the canned overwrite resolver keeps `b` and merging with the canned
no-op resolver keeps `a`. -/
theorem canned_resolver_merge (A B : List (K × V)) (k : K) (a b : V)
    (hA : nodupKeys A) (hB : nodupKeys B)
    (ha : lookupA A k = some a) (hb : lookupA B k = some b) :
    mapLookup (Merge OverwriteResolver [some A, some B]) k = some b
    ∧ mapLookup (Merge NopResolver [some A, some B]) k = some a := by
  have hnd : ∀ m ∈ [some A, some B], nodupKeys (toEntries (K := K) (V := V) m) := by
    intro m hm
    rcases List.mem_cons.mp hm with h | h
    · subst h; exact hA
    · simp at h; subst h; exact hB
  constructor
  · rw [Merge_lookup OverwriteResolver [some A, some B] hnd k]
    simp [occurrences, mapLookup, toEntries, ha, hb, resolveFold, OverwriteResolver]
  · rw [Merge_lookup NopResolver [some A, some B] hnd k]
    simp [occurrences, mapLookup, toEntries, ha, hb, resolveFold, NopResolver]

/-- Witness for C3 at `A = {1 ↦ 5}`, `B = {1 ↦ 7}`. -/
theorem canned_resolver_merge_witness :
    mapLookup (Merge OverwriteResolver [some [(1, 5)], some [((1 : Nat), (7 : Nat))]]) 1 = some 7
    ∧ mapLookup (Merge NopResolver [some [(1, 5)], some [((1 : Nat), (7 : Nat))]]) 1 = some 5 := by
  have h := canned_resolver_merge [((1 : Nat), (5 : Nat))] [(1, 7)] 1 5 7
    (by decide) (by decide) (by decide) (by decide)
  exact h

/-- Helper: a key is in the merge result exactly when some source map
contains it. -/
theorem mergeKeys_iff (fn : V → V → V) (src : List (GoMap K V))
    (hnd : ∀ m ∈ src, nodupKeys (toEntries m)) (k : K) :
    (mapLookup (Merge fn src) k).isSome ↔ ∃ m ∈ src, (mapLookup m k).isSome := by
  rw [Merge_lookup fn src hnd k, resolveFold_isSome]
  have hocc : occurrences k src = [] ↔ ∀ m ∈ src, mapLookup m k = none := by
    simp [occurrences, List.filterMap_eq_nil_iff]
  constructor
  · intro hs
    by_contra hne
    push_neg at hne
    have hall : ∀ m ∈ src, mapLookup m k = none := by
      intro m hm
      have := hne m hm
      simpa [Option.not_isSome_iff_eq_none] using this
    have : occurrences k src = [] := hocc.mpr hall
    simp [this] at hs
  · intro hex
    rcases hex with ⟨m, hm, hs⟩
    cases h : occurrences k src with
    | nil =>
      have := hocc.mp h m hm
      rw [this] at hs
      simp at hs
    | cons v rest => simp [h]

/-- C9: the result of `Merge` is never nil (zero sources give the empty
non-nil map), its key set is exactly the union of the key sets of the
sources,
and the resolver cannot influence which keys appear. -/
theorem merge_keyset_invariant :
    (∀ fn : V → V → V, Merge fn ([] : List (GoMap K V)) = some [])
    ∧ (∀ (fn : V → V → V) (src : List (GoMap K V)), (Merge fn src).isSome = true)
    ∧ (∀ (fn : V → V → V) (src : List (GoMap K V)),
        (∀ m ∈ src, nodupKeys (toEntries m)) →
        ∀ k, ((mapLookup (Merge fn src) k).isSome ↔ ∃ m ∈ src, (mapLookup m k).isSome))
    ∧ (∀ (fn g : V → V → V) (src : List (GoMap K V)),
        (∀ m ∈ src, nodupKeys (toEntries m)) →
        ∀ k, ((mapLookup (Merge fn src) k).isSome ↔
          (mapLookup (Merge g src) k).isSome)) := by
  refine ⟨fun fn => rfl, fun fn src => rfl, fun fn src hnd k => mergeKeys_iff fn src hnd k, ?_⟩
  intro fn g src hnd k
  rw [mergeKeys_iff fn src hnd k, mergeKeys_iff g src hnd k]

/-- Witness for C9 at a concrete source list (including a nil source). -/
theorem merge_keyset_invariant_witness :
    Merge (fun a b : Nat => a + b) ([] : List (GoMap Nat Nat)) = some []
    ∧ (Merge (fun a b : Nat => a + b) [some [(1, 2)], none]).isSome = true
    ∧ ((mapLookup (Merge (fun a b : Nat => a + b) [some [(1, 2)], none]) 1).isSome ↔
        ∃ m ∈ [some [((1 : Nat), (2 : Nat))], none], (mapLookup m 1).isSome)
    ∧ ((mapLookup (Merge (fun a b : Nat => a + b) [some [(1, 2)], none]) 1).isSome ↔
        (mapLookup (Merge (fun _ b : Nat => b) [some [(1, 2)], none]) 1).isSome) := by
  refine ⟨merge_keyset_invariant.1 (fun a b => a + b),
    merge_keyset_invariant.2.1 (fun a b => a + b) [some [(1, 2)], none],
    merge_keyset_invariant.2.2.1 (fun a b => a + b) [some [(1, 2)], none] (by decide) 1,
    merge_keyset_invariant.2.2.2 (fun a b => a + b) (fun _ b => b)
      [some [(1, 2)], none] (by decide) 1⟩

/-- C5: `GetOrPanic` returns the stored value exactly when the key is
present and panics exactly when it is absent; the operation performs no
map write at all (it is modelled as a pure read returning no map), so the
mapping is left unchanged in every case. -/
theorem getOrPanic_spec (m : GoMap K V) (k : K) :
    (∀ v, mapLookup m k = some v → GetOrPanic m k = Except.ok v)
    ∧ (mapLookup m k = none →
        GetOrPanic m k = Except.error "key does not exist in map")
    ∧ ((GetOrPanic m k).isOk ↔ (mapLookup m k).isSome) := by
  refine ⟨?_, ?_, ?_⟩ <;>
    cases h : mapLookup m k <;> simp [GetOrPanic, h, Except.isOk, Except.toBool]

/-- Witness for C5 at the map `{1 ↦ 5}`: key `1` is returned, key `2`
panics. -/
theorem getOrPanic_spec_witness :
    GetOrPanic (some [((1 : Nat), (5 : Nat))]) 1 = Except.ok 5
    ∧ GetOrPanic (some [((1 : Nat), (5 : Nat))]) 2 =
        Except.error "key does not exist in map" := by
  have h1 := (getOrPanic_spec (some [((1 : Nat), (5 : Nat))]) 1).1 5 (by decide)
  have h2 := (getOrPanic_spec (some [((1 : Nat), (5 : Nat))]) 2).2.1 (by decide)
  exact ⟨h1, h2⟩

/-- C6: on a non-nil map, `SetIfPresent` writes and returns `true`
exactly when the key is present (otherwise `false` with the map
unchanged), `SetIfAbsent` writes and returns `true` exactly when the key
is absent (otherwise `false` with the map unchanged), and the performed
write stores `v` under `k` while leaving the binding of every other key
untouched. -/
theorem setIfPresent_setIfAbsent_spec (l : List (K × V)) (k : K) (v : V) :
    ((lookupA l k).isSome →
      SetIfPresent (some l) k v = some (some (insertA l k v), true))
    ∧ (lookupA l k = none → SetIfPresent (some l) k v = some (some l, false))
    ∧ (lookupA l k = none →
      SetIfAbsent (some l) k v = some (some (insertA l k v), true))
    ∧ ((lookupA l k).isSome → SetIfAbsent (some l) k v = some (some l, false))
    ∧ lookupA (insertA l k v) k = some v
    ∧ (∀ k2, k2 ≠ k → lookupA (insertA l k v) k2 = lookupA l k2) := by
  refine ⟨?_, ?_, ?_, ?_, lookupA_insertA_self l k v,
    fun k2 h2 => lookupA_insertA_ne l v (Ne.symm h2)⟩
  · intro hs
    rcases Option.isSome_iff_exists.mp hs with ⟨w, hw⟩
    simp [SetIfPresent, mapLookup, toEntries, hw, mapWrite]
  · intro hn
    simp [SetIfPresent, mapLookup, toEntries, hn]
  · intro hn
    simp [SetIfAbsent, mapLookup, toEntries, hn, mapWrite]
  · intro hs
    rcases Option.isSome_iff_exists.mp hs with ⟨w, hw⟩
    simp [SetIfAbsent, mapLookup, toEntries, hw]

/-- Witness for C6 at the map `{1 ↦ 5}` with present key `1` and absent
key `2`. -/
theorem setIfPresent_setIfAbsent_spec_witness :
    SetIfPresent (some [((1 : Nat), (5 : Nat))]) 1 9 =
      some (some (insertA [(1, 5)] 1 9), true)
    ∧ SetIfPresent (some [((1 : Nat), (5 : Nat))]) 2 9 = some (some [(1, 5)], false)
    ∧ SetIfAbsent (some [((1 : Nat), (5 : Nat))]) 2 9 =
      some (some (insertA [(1, 5)] 2 9), true)
    ∧ SetIfAbsent (some [((1 : Nat), (5 : Nat))]) 1 9 = some (some [(1, 5)], false) := by
  refine ⟨(setIfPresent_setIfAbsent_spec [(1, 5)] 1 9).1 (by decide),
    (setIfPresent_setIfAbsent_spec [(1, 5)] 2 9).2.1 (by decide),
    (setIfPresent_setIfAbsent_spec [(1, 5)] 2 9).2.2.1 (by decide),
    (setIfPresent_setIfAbsent_spec [(1, 5)] 1 9).2.2.2.1 (by decide)⟩

/-- C7: `Clone` maps the nil map to the nil map (and `Equal` holds there
too), and for every well-formed non-nil map the clone is value-equal to
the original (`Equal` returns `true`); in this value-level model the
clone is literally the same entry list. -/
theorem clone_spec [DecidableEq V] :
    (Clone (none : GoMap K V) = none)
    ∧ Equal (none : GoMap K V) (Clone none) = true
    ∧ ∀ l : List (K × V), nodupKeys l →
        Clone (some l) = some l ∧ Equal (some l) (Clone (some l)) = true := by
  refine ⟨rfl, rfl, ?_⟩
  intro l hnd
  have hc : Clone (some l) = some l := by
    have h := foldl_insertA_of_fresh l hnd [] (fun p _ => rfl)
    simpa [Clone] using h
  refine ⟨hc, ?_⟩
  rw [hc]
  simp only [Equal, toEntries, Option.getD]
  rw [if_neg (by simp)]
  rw [List.all_eq_true]
  intro p hp
  have hlk : lookupA l p.1 = some p.2 := lookupA_of_mem_nodup hnd hp
  simp [mapLookup, toEntries, hlk]

/-- Witness for C7 at the map `{1 ↦ 2}`. -/
theorem clone_spec_witness :
    Clone (some [((1 : Nat), (2 : Nat))]) = some [(1, 2)]
    ∧ Equal (some [((1 : Nat), (2 : Nat))]) (Clone (some [(1, 2)])) = true :=
  (clone_spec (K := Nat) (V := Nat)).2.2 [(1, 2)] (by decide)

/-- C8: after `Copy src dst`, every key of `src` is bound to the value
from `src` (colliding keys of `dst` are overwritten) and every key of `dst`
not in `src` keeps its binding; `src` is not an output, modelling that it
is untouched. -/
theorem copy_spec (src dst : List (K × V)) (hnd : nodupKeys src) (k : K) :
    lookupA (Copy src dst) k =
      match lookupA src k with
      | some v => some v
      | none => lookupA dst k :=
  foldl_insertA_lookup src hnd dst k

/-- Witness for C8: copying `{1 ↦ 10}` over `{1 ↦ 5, 2 ↦ 7}`. -/
theorem copy_spec_witness :
    (lookupA (Copy [((1 : Nat), (10 : Nat))] [(1, 5), (2, 7)]) 1 =
      match lookupA [((1 : Nat), (10 : Nat))] 1 with
      | some v => some v
      | none => lookupA [((1 : Nat), (5 : Nat)), (2, 7)] 1)
    ∧ (lookupA (Copy [((1 : Nat), (10 : Nat))] [(1, 5), (2, 7)]) 2 =
      match lookupA [((1 : Nat), (10 : Nat))] 2 with
      | some v => some v
      | none => lookupA [((1 : Nat), (5 : Nat)), (2, 7)] 2) :=
  ⟨copy_spec [(1, 10)] [(1, 5), (2, 7)] (by decide) 1,
   copy_spec [(1, 10)] [(1, 5), (2, 7)] (by decide) 2⟩

/-- C10: on the nil map, `SetIfPresent` returns `false` without panicking
(the lookup on a nil map finds nothing and no write is attempted), while
`SetIfAbsent` attempts the write and panics (`none`) — the two mutators
are asymmetric on a nil input. -/
theorem nil_map_setter_asymmetry (k : K) (v : V) :
    SetIfPresent (none : GoMap K V) k v = some (none, false)
    ∧ SetIfAbsent (none : GoMap K V) k v = none :=
  ⟨rfl, rfl⟩

/-- The key-collecting fold of `KeyDiff` appends exactly the keys whose
lookup in the other map fails. -/
theorem keyDiff_fold (other l : List (K × V)) :
    ∀ init : List K,
      l.foldl (fun ks p =>
        match lookupA other p.1 with
        | some _ => ks
        | none => ks ++ [p.1]) init =
      init ++ (l.filter (fun p => (lookupA other p.1).isNone)).map Prod.fst := by
  induction l with
  | nil => intro init; simp
  | cons p rest ih =>
    intro init
    have hstep : (p :: rest).foldl (fun ks q =>
        match lookupA other q.1 with
        | some _ => ks
        | none => ks ++ [q.1]) init =
        rest.foldl (fun ks q =>
          match lookupA other q.1 with
          | some _ => ks
          | none => ks ++ [q.1])
          (match lookupA other p.1 with
           | some _ => init
           | none => init ++ [p.1]) := rfl
    rw [hstep, ih]
    cases h : lookupA other p.1 with
    | some v => simp [List.filter_cons, h]
    | none => simp [List.filter_cons, h]

/-- C4: `KeyDiff left right` returns exactly (keys of `left` absent from
`right`, keys of `right` absent from `left`); in particular its first
component is disjoint from the key set of `right` and its second from
the key set of `left`. -/
theorem keyDiff_spec (left right : List (K × V)) :
    (∀ k, k ∈ (KeyDiff left right).1 ↔
      (k ∈ left.map Prod.fst ∧ lookupA right k = none))
    ∧ (∀ k, k ∈ (KeyDiff left right).2 ↔
      (k ∈ right.map Prod.fst ∧ lookupA left k = none))
    ∧ (∀ k ∈ (KeyDiff left right).1, lookupA right k = none)
    ∧ (∀ k ∈ (KeyDiff left right).2, lookupA left k = none) := by
  have h1 : (KeyDiff left right).1 =
      (left.filter (fun p => (lookupA right p.1).isNone)).map Prod.fst := by
    have h := keyDiff_fold right left []
    simpa [KeyDiff] using h
  have h2 : (KeyDiff left right).2 =
      (right.filter (fun p => (lookupA left p.1).isNone)).map Prod.fst := by
    have h := keyDiff_fold left right []
    simpa [KeyDiff] using h
  have hmem1 : ∀ k, k ∈ (KeyDiff left right).1 ↔
      (k ∈ left.map Prod.fst ∧ lookupA right k = none) := by
    intro k
    rw [h1]
    constructor
    · intro hk
      rcases List.mem_map.mp hk with ⟨p, hp, hpk⟩
      rcases List.mem_filter.mp hp with ⟨hpl, hcond⟩
      subst hpk
      exact ⟨List.mem_map_of_mem Prod.fst hpl,
        Option.isNone_iff_eq_none.mp (by simpa using hcond)⟩
    · rintro ⟨hk, hnone⟩
      rcases List.mem_map.mp hk with ⟨p, hp, hpk⟩
      subst hpk
      exact List.mem_map_of_mem Prod.fst
        (List.mem_filter.mpr ⟨hp, by simp [hnone]⟩)
  have hmem2 : ∀ k, k ∈ (KeyDiff left right).2 ↔
      (k ∈ right.map Prod.fst ∧ lookupA left k = none) := by
    intro k
    rw [h2]
    constructor
    · intro hk
      rcases List.mem_map.mp hk with ⟨p, hp, hpk⟩
      rcases List.mem_filter.mp hp with ⟨hpl, hcond⟩
      subst hpk
      exact ⟨List.mem_map_of_mem Prod.fst hpl,
        Option.isNone_iff_eq_none.mp (by simpa using hcond)⟩
    · rintro ⟨hk, hnone⟩
      rcases List.mem_map.mp hk with ⟨p, hp, hpk⟩
      subst hpk
      exact List.mem_map_of_mem Prod.fst
        (List.mem_filter.mpr ⟨hp, by simp [hnone]⟩)
  exact ⟨hmem1, hmem2,
    fun k hk => ((hmem1 k).mp hk).2,
    fun k hk => ((hmem2 k).mp hk).2⟩

/-- Per-key effect of the first diff pass over a duplicate-free left
map. -/
theorem diffPassLeft_lookup [Inhabited V] [DecidableEq V] (d : String)
    (right : List (K × V)) (l : List (K × V)) (hnd : nodupKeys l) :
    ∀ (res : List (K × EntryComparison V)) (k : K),
      lookupA (diffPassLeft d right res l) k =
        match lookupA l k with
        | none => lookupA res k
        | some v =>
          match lookupA right k with
          | none => some (EntryComparison.mk v default d DiffMissingRight)
          | some w =>
            if v ≠ w then some (EntryComparison.mk v w d DiffValue)
            else lookupA res k := by
  induction l with
  | nil => intro res k; simp [diffPassLeft, lookupA]
  | cons p rest ih =>
    intro res k
    have hnd2 : nodupKeys rest := (List.nodup_cons.mp hnd).2
    have hstep : diffPassLeft d right res (p :: rest) =
        diffPassLeft d right
          (match lookupA right p.1 with
           | none =>
             insertA res p.1 (EntryComparison.mk p.2 default d DiffMissingRight)
           | some otherVal =>
             if p.2 ≠ otherVal then
               insertA res p.1 (EntryComparison.mk p.2 otherVal d DiffValue)
             else res) rest := rfl
    rw [hstep, ih hnd2]
    by_cases hk : p.1 = k
    · have hnr : lookupA rest k = none := by
        apply lookupA_eq_none_of_not_mem
        intro hmem
        exact (List.nodup_cons.mp hnd).1 (hk ▸ hmem)
      subst hk
      have hcons : lookupA (p :: rest) p.1 = some p.2 := by simp [lookupA]
      rw [hnr, hcons]
      cases hr : lookupA right p.1 with
      | none => simp [lookupA_insertA_self]
      | some w =>
        by_cases hv : p.2 = w
        · simp [hv]
        · simp [hv, lookupA_insertA_self]
    · have hcons : lookupA (p :: rest) k = lookupA rest k := by
        simp [lookupA, hk]
      rw [hcons]
      cases hr : lookupA right p.1 with
      | none => rw [lookupA_insertA_ne res _ hk]
      | some w =>
        by_cases hv : p.2 = w
        · simp [hv]
        · simp [hv, hk, lookupA_insertA_ne]

/-- Per-key effect of the second diff pass over a duplicate-free right
map. -/
theorem diffPassRight_lookup [Inhabited V] [DecidableEq V] (d : String)
    (left : List (K × V)) (l : List (K × V)) (hnd : nodupKeys l) :
    ∀ (res : List (K × EntryComparison V)) (k : K),
      lookupA (diffPassRight d left res l) k =
        match lookupA l k with
        | none => lookupA res k
        | some v =>
          match lookupA left k with
          | none => some (EntryComparison.mk default v d DiffMissingLeft)
          | some w =>
            if v ≠ w then some (EntryComparison.mk w v d DiffValue)
            else lookupA res k := by
  induction l with
  | nil => intro res k; simp [diffPassRight, lookupA]
  | cons p rest ih =>
    intro res k
    have hnd2 : nodupKeys rest := (List.nodup_cons.mp hnd).2
    have hstep : diffPassRight d left res (p :: rest) =
        diffPassRight d left
          (match lookupA left p.1 with
           | none =>
             insertA res p.1 (EntryComparison.mk default p.2 d DiffMissingLeft)
           | some otherVal =>
             if p.2 ≠ otherVal then
               insertA res p.1 (EntryComparison.mk otherVal p.2 d DiffValue)
             else res) rest := rfl
    rw [hstep, ih hnd2]
    by_cases hk : p.1 = k
    · have hnr : lookupA rest k = none := by
        apply lookupA_eq_none_of_not_mem
        intro hmem
        exact (List.nodup_cons.mp hnd).1 (hk ▸ hmem)
      subst hk
      have hcons : lookupA (p :: rest) p.1 = some p.2 := by simp [lookupA]
      rw [hnr, hcons]
      cases hr : lookupA left p.1 with
      | none => simp [lookupA_insertA_self]
      | some w =>
        by_cases hv : p.2 = w
        · simp [hv]
        · simp [hv, lookupA_insertA_self]
    · have hcons : lookupA (p :: rest) k = lookupA rest k := by
        simp [lookupA, hk]
      rw [hcons]
      cases hr : lookupA left p.1 with
      | none => rw [lookupA_insertA_ne res _ hk]
      | some w =>
        by_cases hv : p.2 = w
        · simp [hv]
        · simp [hv, hk, lookupA_insertA_ne]

/-- Full per-key characterization of `Diff`. -/
theorem Diff_lookup [Inhabited V] [DecidableEq V] (left right : List (K × V))
    (hl : nodupKeys left) (hr : nodupKeys right) (k : K) :
    lookupA (Diff left right) k =
      match lookupA left k, lookupA right k with
      | some v, some w =>
        if v = w then none
        else some (EntryComparison.mk v w (cmpDiff left right) DiffValue)
      | some v, none =>
        some (EntryComparison.mk v default (cmpDiff left right) DiffMissingRight)
      | none, some w =>
        some (EntryComparison.mk default w (cmpDiff left right) DiffMissingLeft)
      | none, none => none := by
  unfold Diff
  rw [diffPassRight_lookup (cmpDiff left right) left right hr
    (diffPassLeft (cmpDiff left right) right [] left) k]
  rw [diffPassLeft_lookup (cmpDiff left right) right left hl [] k]
  cases ha : lookupA left k with
  | none =>
    cases hb : lookupA right k with
    | none => simp [lookupA]
    | some w => simp
  | some v =>
    cases hb : lookupA right k with
    | none => simp [lookupA]
    | some w =>
      by_cases hv : v = w
      · subst hv
        simp [lookupA]
      · have hv2 : w ≠ v := Ne.symm hv
        simp [hv, hv2]

/-- C2: `Diff A B` has an entry with reason `DiffValue` at `k` iff `k` is
in both maps with different values, reason `DiffMissingRight` iff `k` is
only in `A`, reason `DiffMissingLeft` iff `k` is only in `B`, and a key
with equal values in both maps produces no entry. -/
theorem diff_spec [Inhabited V] [DecidableEq V] (A B : List (K × V))
    (hA : nodupKeys A) (hB : nodupKeys B) :
    (∀ k, (∃ ec, lookupA (Diff A B) k = some ec ∧ ec.Reason = DiffValue) ↔
      (∃ a b, lookupA A k = some a ∧ lookupA B k = some b ∧ a ≠ b))
    ∧ (∀ k, (∃ ec, lookupA (Diff A B) k = some ec ∧ ec.Reason = DiffMissingRight) ↔
      ((lookupA A k).isSome ∧ lookupA B k = none))
    ∧ (∀ k, (∃ ec, lookupA (Diff A B) k = some ec ∧ ec.Reason = DiffMissingLeft) ↔
      ((lookupA B k).isSome ∧ lookupA A k = none))
    ∧ (∀ k v, lookupA A k = some v → lookupA B k = some v →
      lookupA (Diff A B) k = none) := by
  have hchar := Diff_lookup A B hA hB
  refine ⟨?_, ?_, ?_, ?_⟩
  · intro k
    rw [hchar k]
    cases ha : lookupA A k with
    | none =>
      cases hb : lookupA B k <;>
        simp [DiffValue, DiffMissingLeft, DiffMissingRight]
    | some v =>
      cases hb : lookupA B k with
      | none => simp [DiffValue, DiffMissingRight]
      | some w =>
        by_cases hv : v = w
        · subst hv
          simp
        · simp [hv]
  · intro k
    rw [hchar k]
    cases ha : lookupA A k with
    | none =>
      cases hb : lookupA B k <;>
        simp [DiffMissingLeft, DiffMissingRight]
    | some v =>
      cases hb : lookupA B k with
      | none => simp
      | some w =>
        by_cases hv : v = w
        · subst hv
          simp
        · simp [hv, DiffValue, DiffMissingRight]
  · intro k
    rw [hchar k]
    cases ha : lookupA A k with
    | none =>
      cases hb : lookupA B k <;> simp
    | some v =>
      cases hb : lookupA B k with
      | none => simp [DiffMissingLeft, DiffMissingRight]
      | some w =>
        by_cases hv : v = w
        · subst hv
          simp
        · simp [hv, DiffValue, DiffMissingLeft]
  · intro k v hka hkb
    rw [hchar k, hka, hkb]
    simp

/-- Witness for C2 at `A = {1 ↦ 5, 2 ↦ 6}`, `B = {1 ↦ 7, 3 ↦ 6}` (value
mismatch at 1, missing-right at 2, missing-left at 3) and at equal
singleton maps for the no-entry clause. -/
theorem diff_spec_witness :
    ((∃ ec, lookupA (Diff [((1 : Nat), (5 : Nat)), (2, 6)] [(1, 7), (3, 6)]) 1 =
        some ec ∧ ec.Reason = DiffValue) ↔
      (∃ a b, lookupA [((1 : Nat), (5 : Nat)), (2, 6)] 1 = some a ∧
        lookupA [((1 : Nat), (7 : Nat)), (3, 6)] 1 = some b ∧ a ≠ b))
    ∧ ((∃ ec, lookupA (Diff [((1 : Nat), (5 : Nat)), (2, 6)] [(1, 7), (3, 6)]) 2 =
        some ec ∧ ec.Reason = DiffMissingRight) ↔
      ((lookupA [((1 : Nat), (5 : Nat)), (2, 6)] 2).isSome ∧
        lookupA [((1 : Nat), (7 : Nat)), (3, 6)] 2 = none))
    ∧ ((∃ ec, lookupA (Diff [((1 : Nat), (5 : Nat)), (2, 6)] [(1, 7), (3, 6)]) 3 =
        some ec ∧ ec.Reason = DiffMissingLeft) ↔
      ((lookupA [((1 : Nat), (7 : Nat)), (3, 6)] 3).isSome ∧
        lookupA [((1 : Nat), (5 : Nat)), (2, 6)] 3 = none))
    ∧ lookupA (Diff [((1 : Nat), (5 : Nat))] [(1, 5)]) 1 = none := by
  have h := diff_spec [((1 : Nat), (5 : Nat)), (2, 6)] [(1, 7), (3, 6)]
    (by decide) (by decide)
  have h2 := diff_spec [((1 : Nat), (5 : Nat))] [(1, 5)] (by decide) (by decide)
  exact ⟨h.1 1, h.2.1 2, h.2.2.1 3, h2.2.2.2 1 5 (by decide) (by decide)⟩

end Maps
